import Mathlib

/-!
Verification of the IPM catalog / registry core (`ipm/common.py`).

The data model and the operations are embedded shallowly: JSON objects of
the remote catalog and of the local registry become Lean structures, the
Python dictionaries (whose iteration order is insertion order) become
association lists, and the `for`-loops become folds.  Fallible behaviour
(a missing registry file, a non-parsable response body, an out-of-range
`release[-1]` access) is made explicit with `Option` / `Except`.
-/

/-- One element of an IP descriptor's `release` array: `{version, date}`. -/
structure ReleaseEntry where
  version : String
  date : String
deriving DecidableEq, Repr

/-- A remote IP descriptor, one object of a category's array in
`Verified_IPs.json` (the fields read by `RemoteIP.get_ip_info` and the
listing functions). -/
structure IPEntry where
  name : String
  repo : String
  author : String
  email : String
  type : String
  category : String
  status : String
  width : String
  height : String
  technology : String
  release : List ReleaseEntry
deriving DecidableEq, Repr

/-- An installed-IP record, one object of a category's array in
`Installed_IPs.json` (the fields read by `LocalIP.get_ip_info`). -/
structure LocalRecord where
  name : String
  repo : String
  author : String
  email : String
  type : String
  category : String
  status : String
  width : String
  height : String
  technology : String
  release : List ReleaseEntry
  version : String
  date : String
  ip_root : String
deriving DecidableEq, Repr

/-- The parsed remote catalog: category name → array of descriptors, in the
dictionary's iteration (= insertion) order. -/
abbrev Catalog : Type := List (String × List IPEntry)

/-- The parsed local registry: category name → array of installed records. -/
abbrev Registry : Type := List (String × List LocalRecord)

/-- Embeds the loop of `RemoteIP.get_ip_info(name, technology)`
(common.py lines 62-80): iterate over every category and every entry; each
entry whose `name` and `technology` both equal the arguments overwrites the
object's attributes (there is no `break`), so after the loop the attributes
hold the last matching entry, or nothing if no entry matched.  The result
is that final entry. -/
def RemoteIP.get_ip_info (data : Catalog) (name : String) (technology : String) :
    Option IPEntry :=
  data.foldl
    (fun acc kv =>
      kv.2.foldl
        (fun acc v =>
          if v.name == name && v.technology == technology then some v else acc)
        acc)
    none

/-- `RemoteIP.get_ip_info` called without an explicit technology argument:
the Python default parameter is `technology="sky130"` (common.py line 59). -/
def RemoteIP.get_ip_info_default (data : Catalog) (name : String) : Option IPEntry :=
  RemoteIP.get_ip_info data name "sky130"

/-- How `LocalIP.get_ip_info` can fail before reaching its loop:
`open(self.json_file)` raises when the registry file does not exist
(common.py line 96). -/
inductive LoadErr where
  | fileNotFound
deriving DecidableEq, Repr

/-- Embeds `LocalIP.get_ip_info(name, ip_root, technology)`
(common.py lines 95-114).  The registry file's content is passed as
`Option Registry`: `none` models a missing file, on which `open` raises
(`FileNotFoundError`), translated to `.error .fileNotFound`.  With the file
present, the loop scans every category and every record and each record
matching `name`, `technology` and `ip_root` simultaneously overwrites the
attributes (no `break`), so the result is the last such record if any. -/
def LocalIP.get_ip_info (fileContent : Option Registry) (name : String)
    (ip_root : String) (technology : String) : Except LoadErr (Option LocalRecord) :=
  match fileContent with
  | none => .error .fileNotFound
  | some data =>
      .ok (data.foldl
        (fun acc kv =>
          kv.2.foldl
            (fun acc v =>
              if v.name == name && v.technology == technology && v.ip_root == ip_root
              then some v else acc)
            acc)
        none)

/-- `LocalIP.get_ip_info` called without an explicit technology argument:
the Python default parameter is `technology="sky130"` (common.py line 95). -/
def LocalIP.get_ip_info_default (fileContent : Option Registry) (name : String)
    (ip_root : String) : Except LoadErr (Option LocalRecord) :=
  LocalIP.get_ip_info fileContent name ip_root "sky130"

/-- A remote HTTP response as `RemoteIP.get_all_ips` sees it: its status
code and the result of `json.loads` on its text (`none` when the body is
not valid JSON, in which case `json.loads` raises). -/
structure Resp where
  status : Nat
  body : Option Catalog

/-- How `RemoteIP.get_all_ips` can fail: `exit(1)` after printing
"couldn't connect to server" on a 404 status, or the `json.loads`
exception on a non-parsable body. -/
inductive FetchErr where
  | serverUnavailable
  | jsonError
deriving DecidableEq, Repr

/-- Embeds `RemoteIP.get_all_ips` (common.py lines 82-88): if the response
status is exactly 404 it prints an error and exits; otherwise — whatever
the status — the body is parsed with `json.loads` and returned. -/
def RemoteIP.get_all_ips (resp : Resp) : Except FetchErr Catalog :=
  if resp.status = 404 then .error .serverUnavailable
  else
    match resp.body with
    | some data => .ok data
    | none => .error .jsonError

/-- The raw remote catalog as `list_remote_ips` iterates it, before any
field access: a category's array may contain falsy elements (`null` or an
empty object), modelled as `none`. -/
abbrev RawCatalog : Type := List (String × List (Option IPEntry))

/-- One row of the table printed by the listing functions, in the column
order of `table.add_row`. -/
structure Row where
  category : String
  name : String
  version : String
  author : String
  date : String
  type : String
  status : String
  width : String
  height : String
  technology : String
deriving DecidableEq, Repr

/-- The row `list_remote_ips` builds for a catalog entry `v` under category
`key` once `value["release"][-1]` has been evaluated to `r`. -/
def mkRow (key : String) (v : IPEntry) (r : ReleaseEntry) : Row :=
  { category := key, name := v.name, version := r.version, author := v.author,
    date := r.date, type := v.type, status := v.status, width := v.width,
    height := v.height, technology := v.technology }

/-- How `list_remote_ips` can fail while building a row:
`value["release"][-1]` raises `IndexError` on an empty release array. -/
inductive RowErr where
  | indexError
deriving DecidableEq, Repr

/-- The body of the inner loop of `list_remote_ips` for one array element
under category `key`: a falsy element (`if value:` fails) is skipped;
otherwise a row is added whose version and date come from
`value["release"][-1]`, which raises on an empty release array. -/
def listStep (key : String) (acc : List Row) (v? : Option IPEntry) :
    Except RowErr (List Row) :=
  match v? with
  | none => pure acc
  | some v =>
      match v.release.getLast? with
      | none => .error .indexError
      | some r => pure (acc ++ [mkRow key v r])

/-- Embeds the table-filling loop of `list_remote_ips`
(common.py lines 133-147): iterate over every category and every element
of its array, running `listStep` on each. -/
def list_remote_ips (data : RawCatalog) : Except RowErr (List Row) :=
  data.foldlM (fun acc kv => kv.2.foldlM (listStep kv.1) acc) []

/-- Embeds the table-filling loop of `list_remote_ip_info`
(common.py lines 168-185): for every category and every entry whose `name`
equals the requested ip — the technology is not inspected — one row is
added per index `i` of the entry's release array, in index order, with
version and date from `value["release"][i]`. -/
def list_remote_ip_info (data : Catalog) (ip : String) : List Row :=
  data.foldl
    (fun acc kv =>
      kv.2.foldl
        (fun acc v =>
          if v.name == ip then
            acc ++ (List.range v.release.length).map
              (fun i => mkRow kv.1 v (v.release.getD i ⟨"", ""⟩))
          else acc)
        acc)
    []

/-- Modelled from the spec: the VersionOrdering component (§4.1) has no
code under `src/` (the `check`/`update` implementations are commented
out), so its comparison is taken from the spec's words: versions are
dot-separated sequences of non-negative integers, compared
lexicographically by integer component.  `lexGt` is that strict
lexicographic comparison on two component lists of equal length. -/
def lexGt : List Nat → List Nat → Bool
  | x :: xs, y :: ys => if y < x then true else if x = y then lexGt xs ys else false
  | _, _ => false

/-- Modelled from the spec: "missing trailing components are treated as
zero" — a component list is padded with zeros up to length `n`. -/
def padTo (n : Nat) (u : List Nat) : List Nat :=
  u ++ List.replicate (n - u.length) 0

/-- Modelled from the spec: the "strictly newer" comparison on parsed
component lists: pad both to a common length, then compare
lexicographically by integer component. -/
def verGt (u v : List Nat) : Bool :=
  lexGt (padTo (max u.length v.length) u) (padTo (max u.length v.length) v)

/-- Version equivalence: equal once padded to a common length (e.g.
`[1,2]` and `[1,2,0]`). -/
def verEqv (u v : List Nat) : Bool :=
  padTo (max u.length v.length) u == padTo (max u.length v.length) v

/-- Splitting a character sequence at every dot, keeping empty pieces
(the semantics of splitting a string on `"."`): `"1.10"` becomes the two
components `1` and `10`. -/
def splitComponents : List Char → List (List Char)
  | [] => [[]]
  | c :: rest =>
    match splitComponents rest with
    | [] => if c = '.' then [[], []] else [[c]]
    | comp :: others =>
      if c = '.' then [] :: comp :: others else (c :: comp) :: others

/-- The numeric value of a decimal digit character, `none` otherwise. -/
def digitVal (c : Char) : Option Nat :=
  if '0' ≤ c ∧ c ≤ '9' then some (c.toNat - '0'.toNat) else none

/-- A version component parsed as a non-negative decimal integer; `none`
on an empty or non-numeric component. -/
def parseNatComp (cs : List Char) : Option Nat :=
  match cs with
  | [] => none
  | _ => cs.foldlM (fun acc c => (digitVal c).map (fun d => acc * 10 + d)) 0

/-- Modelled from the spec: parsing a version string into its dot-separated
integer components; `none` models the `MalformedVersion` failure when a
component is non-numeric. -/
def parseVersion (s : String) : Option (List Nat) :=
  (splitComponents s.data).mapM parseNatComp

/-- Modelled from the spec: `isNewer(a, b)` — whether version string `a` is
strictly newer than version string `b`; `none` models `MalformedVersion`. -/
def isNewer (a b : String) : Option Bool := do
  let u ← parseVersion a
  let v ← parseVersion b
  pure (verGt u v)

/-- The component of a parsed version at index `i`, missing components
being zero: the semantic object the spec's "componentwise integer
comparison" talks about. -/
def compAt (u : List Nat) (i : Nat) : Nat :=
  u.getD i 0

/-- Declarative componentwise comparison: `u` is newer than `v` iff at the
first index where their (zero-extended) components differ, `u`'s component
is larger. -/
def VerGtSpec (u v : List Nat) : Prop :=
  ∃ i, (∀ j, j < i → compAt u j = compAt v j) ∧ compAt v i < compAt u i

/-- A concrete catalog descriptor used in the closed instances below. -/
def entA : IPEntry :=
  { name := "ip1", repo := "repoA", author := "alice", email := "a@x",
    type := "hard", category := "analog", status := "verified", width := "1",
    height := "1", technology := "sky130",
    release := [⟨"1.0.0", "2022-01-01T00:00:00Z"⟩] }

/-- A second descriptor with the same (name, technology) as `entA` but
different remaining fields, filed under another category. -/
def entB : IPEntry :=
  { entA with repo := "repoB", author := "bob", category := "digital" }

/-- A descriptor whose release array is out of order: the strictly newest
version `2.0.0` comes first and the last element is `1.0.0`. -/
def entC : IPEntry :=
  { entA with release := [⟨"2.0.0", "2022-02-01T00:00:00Z"⟩,
                          ⟨"1.0.0", "2022-01-01T00:00:00Z"⟩] }

/-- A descriptor with an empty release array. -/
def entD : IPEntry :=
  { entA with release := [] }

/-- A concrete installed-IP record used in the closed instances below. -/
def recA : LocalRecord :=
  { name := "ip1", repo := "repoA", author := "alice", email := "a@x",
    type := "hard", category := "analog", status := "verified", width := "1",
    height := "1", technology := "sky130",
    release := [⟨"1.0.0", "2022-01-01T00:00:00Z"⟩], version := "1.0.0",
    date := "2022-01-01T00:00:00Z", ip_root := "/home/user/.ipm" }

/-! ## Characterizations of the lookup folds -/

theorem getLast?_cons_or {α : Type} (x : α) (l : List α) :
    (x :: l).getLast? = l.getLast?.or (some x) := by
  cases l with
  | nil => rfl
  | cons b t =>
    rw [List.getLast?_cons_cons]
    rcases h : (b :: t).getLast? with _ | y
    · simp [List.getLast?_eq_none_iff] at h
    · rfl

theorem overwrite_fold {α : Type} (p : α → Bool) :
    ∀ (l : List α) (acc : Option α),
      l.foldl (fun a v => if p v then some v else a) acc
        = ((l.filter p).getLast?).or acc := by
  intro l
  induction l with
  | nil => intro acc; rfl
  | cons x xs ih =>
    intro acc
    by_cases h : p x
    · simp only [List.foldl_cons, if_pos h, ih, List.filter_cons_of_pos h,
        getLast?_cons_or, Option.or_assoc]
      rfl
    · simp only [List.foldl_cons, if_neg h, ih, List.filter_cons_of_neg h]

theorem overwrite_fold2 {κ α : Type} (p : α → Bool) :
    ∀ (data : List (κ × List α)) (acc : Option α),
      data.foldl (fun a kv => kv.2.foldl (fun a v => if p v then some v else a) a) acc
        = (((data.flatMap Prod.snd).filter p).getLast?).or acc := by
  intro data
  induction data with
  | nil => intro acc; rfl
  | cons kv rest ih =>
    intro acc
    rw [List.foldl_cons, overwrite_fold, ih, List.flatMap_cons, List.filter_append,
      List.getLast?_append, Option.or_assoc]

theorem remote_find_eq (data : Catalog) (name tech : String) :
    RemoteIP.get_ip_info data name tech
      = ((data.flatMap Prod.snd).filter
          (fun v => v.name == name && v.technology == tech)).getLast? := by
  unfold RemoteIP.get_ip_info
  rw [overwrite_fold2, Option.or_none]

theorem local_find_eq (data : Registry) (name root tech : String) :
    LocalIP.get_ip_info (some data) name root tech
      = .ok (((data.flatMap Prod.snd).filter
          (fun v => v.name == name && v.technology == tech && v.ip_root == root)).getLast?) := by
  have h : LocalIP.get_ip_info (some data) name root tech
      = Except.ok (data.foldl
          (fun acc kv =>
            kv.2.foldl
              (fun acc v =>
                if v.name == name && v.technology == tech && v.ip_root == root
                then some v else acc)
              acc)
          none) := rfl
  rw [h, overwrite_fold2, Option.or_none]

/-! ## C1 — ambiguity tie-break of the descriptor lookup -/

/-- C1, refuted at a concrete input: the catalog files `entA` under
"analog" (iterated first) and `entB` — same name and technology, different
author and repo — under "digital"; `RemoteIP.get_ip_info` resolves to
`entB`, the second entry encountered, not the first as the claim states. -/
theorem C1_counterexample :
    RemoteIP.get_ip_info [("analog", [entA]), ("digital", [entB])] "ip1" "sky130"
      = some entB ∧ entB ≠ entA := by
  exact ⟨rfl, by decide⟩

/-- C1 (amended): when several categories contain an entry with the
requested (name, technology), the lookup resolves to the LAST such entry
in the category mapping's iteration order — every match overwrites the
previously stored attributes and there is no early exit. -/
theorem C1_last_match (data : Catalog) (name tech : String) :
    RemoteIP.get_ip_info data name tech
      = ((data.flatMap Prod.snd).filter
          (fun v => v.name == name && v.technology == tech)).getLast? :=
  remote_find_eq data name tech

/-! ## C3 — behaviour of the local lookup on a missing registry file -/

/-- C3, refuted at a concrete input: with no registry file the lookup
raises (`FileNotFoundError` from `open`), while an empty registry would
give the successful "no record" answer; the two results differ. -/
theorem C3_counterexample :
    LocalIP.get_ip_info none "ip1" "/home/user/.ipm" "sky130" = .error .fileNotFound
    ∧ LocalIP.get_ip_info (some []) "ip1" "/home/user/.ipm" "sky130" = .ok none
    ∧ (Except.error LoadErr.fileNotFound
        ≠ (Except.ok none : Except LoadErr (Option LocalRecord))) := by
  refine ⟨rfl, rfl, fun h => Except.noConfusion h⟩

/-- C3 (amended): for every lookup over a missing registry file,
`LocalIP.get_ip_info` fails with the file-not-found error — a missing file
is NOT treated as an empty registry. -/
theorem C3_missing_file_error (name root tech : String) :
    LocalIP.get_ip_info none name root tech = .error .fileNotFound := rfl

/-! ## C4 — error handling of the catalog fetch -/

/-- C4, refuted at a concrete input: a response with non-success status
500 and a parsable body is NOT rejected — `RemoteIP.get_all_ips` proceeds
to parse the body and returns the catalog. -/
theorem C4_counterexample :
    RemoteIP.get_all_ips ⟨500, some [("analog", [entA])]⟩
      = .ok [("analog", [entA])] := rfl

/-- C4 (amended): `RemoteIP.get_all_ips` fails with the unavailable error
exactly on status 404; for every other status — success or not — it
proceeds to parse the response body (failing only if the body is not
valid JSON). -/
theorem C4_only_404_checked (resp : Resp) :
    (resp.status = 404 → RemoteIP.get_all_ips resp = .error .serverUnavailable)
    ∧ (resp.status ≠ 404 → ∀ d, resp.body = some d → RemoteIP.get_all_ips resp = .ok d)
    ∧ (resp.status ≠ 404 → resp.body = none → RemoteIP.get_all_ips resp = .error .jsonError) := by
  refine ⟨fun h => ?_, fun h d hd => ?_, fun h hb => ?_⟩ <;>
    simp [RemoteIP.get_all_ips, h, *]

/-- Closed instance of `C4_only_404_checked` at status 500 with an empty
parsable body. -/
theorem C4_witness :
    ((⟨500, some []⟩ : Resp).status ≠ 404)
    ∧ RemoteIP.get_all_ips ⟨500, some []⟩ = .ok [] :=
  ⟨by decide, (C4_only_404_checked ⟨500, some []⟩).2.1 (by decide) [] rfl⟩

/-! ## C5, C6 — exact-match characterization of the lookups -/

theorem getLast?_filter_mem {α : Type} (p : α → Bool) (l : List α) (e : α)
    (h : (l.filter p).getLast? = some e) : e ∈ l ∧ p e = true := by
  have hmem : e ∈ l.filter p := by
    rcases List.mem_getLast?_eq_getLast (Option.mem_def.mpr h) with ⟨hne, heq⟩
    rw [heq]
    exact List.getLast_mem hne
  exact ⟨List.mem_of_mem_filter hmem, (List.mem_filter.mp hmem).2⟩

theorem getLast?_filter_isSome_iff {α : Type} (p : α → Bool) (l : List α) :
    ((l.filter p).getLast?).isSome = true ↔ ∃ v ∈ l, p v = true := by
  rw [List.getLast?_isSome, ne_eq, List.filter_eq_nil_iff]
  push_neg
  simp

theorem remote_find_matches (data : Catalog) (name tech : String) (e : IPEntry)
    (he : RemoteIP.get_ip_info data name tech = some e) :
    e ∈ data.flatMap Prod.snd ∧ e.name = name ∧ e.technology = tech := by
  rw [remote_find_eq] at he
  rcases getLast?_filter_mem _ _ _ he with ⟨hmem, hp⟩
  rcases Bool.and_eq_true_iff.mp hp with ⟨h1, h2⟩
  exact ⟨hmem, beq_iff_eq.mp h1, beq_iff_eq.mp h2⟩

theorem local_find_matches (data : Registry) (name root tech : String) (r : LocalRecord)
    (hr : LocalIP.get_ip_info (some data) name root tech = .ok (some r)) :
    r ∈ data.flatMap Prod.snd ∧ r.name = name ∧ r.technology = tech ∧ r.ip_root = root := by
  rw [local_find_eq] at hr
  have hr' := Except.ok.inj hr
  rcases getLast?_filter_mem _ _ _ hr' with ⟨hmem, hp⟩
  rcases Bool.and_eq_true_iff.mp hp with ⟨h12, h3⟩
  rcases Bool.and_eq_true_iff.mp h12 with ⟨h1, h2⟩
  exact ⟨hmem, beq_iff_eq.mp h1, beq_iff_eq.mp h2, beq_iff_eq.mp h3⟩

/-- C5: `RemoteIP.get_ip_info` yields a descriptor exactly when some
category's array contains an entry whose `name` and `technology` both
equal the requested pair (string equality — case-sensitive); any yielded
descriptor is such an entry of the catalog.  When no entry matches, the
lookup yields nothing. -/
theorem C5_find_iff (data : Catalog) (name tech : String) :
    ((RemoteIP.get_ip_info data name tech).isSome = true ↔
      ∃ kv ∈ data, ∃ v ∈ kv.2, v.name = name ∧ v.technology = tech)
    ∧ ∀ e, RemoteIP.get_ip_info data name tech = some e →
        (∃ kv ∈ data, e ∈ kv.2) ∧ e.name = name ∧ e.technology = tech := by
  constructor
  · rw [remote_find_eq, getLast?_filter_isSome_iff]
    simp only [List.mem_flatMap, Bool.and_eq_true, beq_iff_eq, Prod.exists]
    constructor
    · rintro ⟨v, ⟨a, b, hab, hvb⟩, hp⟩
      exact ⟨a, b, hab, v, hvb, hp⟩
    · rintro ⟨a, b, hab, v, hvb, hp⟩
      exact ⟨v, ⟨a, b, hab, hvb⟩, hp⟩
  · intro e he
    rcases remote_find_matches data name tech e he with ⟨hmem, h1, h2⟩
    exact ⟨List.mem_flatMap.mp hmem, h1, h2⟩

/-- Closed instance of `C5_find_iff`: on a one-category catalog holding
`entA`, the lookup for ("ip1", "sky130") yields a descriptor. -/
theorem C5_witness :
    (RemoteIP.get_ip_info [("analog", [entA])] "ip1" "sky130").isSome = true :=
  (C5_find_iff [("analog", [entA])] "ip1" "sky130").1.mpr
    ⟨("analog", [entA]), List.mem_singleton.mpr rfl, entA, List.mem_singleton.mpr rfl,
      rfl, rfl⟩

/-- C6: with the registry file present, `LocalIP.get_ip_info` yields a
record exactly when some category's array contains a record matching
`name`, `technology` and `ip_root` simultaneously; any yielded record
matches all three keys, so a record agreeing on only one or two of them is
never returned. -/
theorem C6_record_match (data : Registry) (name tech root : String) :
    ((∃ r, LocalIP.get_ip_info (some data) name root tech = .ok (some r)) ↔
      ∃ kv ∈ data, ∃ r ∈ kv.2,
        r.name = name ∧ r.technology = tech ∧ r.ip_root = root)
    ∧ ∀ r, LocalIP.get_ip_info (some data) name root tech = .ok (some r) →
        r.name = name ∧ r.technology = tech ∧ r.ip_root = root := by
  constructor
  · rw [local_find_eq]
    simp only [Except.ok.injEq]
    rw [← Option.isSome_iff_exists, getLast?_filter_isSome_iff]
    simp only [List.mem_flatMap, Bool.and_eq_true, beq_iff_eq, Prod.exists]
    constructor
    · rintro ⟨v, ⟨a, b, hab, hvb⟩, ⟨h1, h2⟩, h3⟩
      exact ⟨a, b, hab, v, hvb, h1, h2, h3⟩
    · rintro ⟨a, b, hab, v, hvb, h1, h2, h3⟩
      exact ⟨v, ⟨a, b, hab, hvb⟩, ⟨h1, h2⟩, h3⟩
  · intro r hr
    exact (local_find_matches data name root tech r hr).2

/-- Closed instance of `C6_record_match`: on a one-category registry
holding `recA`, the lookup for its exact (name, technology, ip_root)
triple yields a record. -/
theorem C6_witness :
    ∃ r, LocalIP.get_ip_info (some [("analog", [recA])]) "ip1" "/home/user/.ipm" "sky130"
      = .ok (some r) :=
  (C6_record_match [("analog", [recA])] "ip1" "sky130" "/home/user/.ipm").1.mpr
    ⟨("analog", [recA]), List.mem_singleton.mpr rfl, recA, List.mem_singleton.mpr rfl,
      rfl, rfl, rfl⟩

/-! ## C8 — the implicit technology default -/

/-- C8: a remote-descriptor or installed-record lookup invoked without an
explicit technology argument uses the Python default `"sky130"`, so any
entry or record it yields has technology `"sky130"` — entries of any other
technology are never matched by such a call. -/
theorem C8_default_sky130 :
    (∀ (data : Catalog) (name : String) (e : IPEntry),
        RemoteIP.get_ip_info_default data name = some e → e.technology = "sky130")
    ∧ ∀ (file : Option Registry) (name root : String) (r : LocalRecord),
        LocalIP.get_ip_info_default file name root = .ok (some r) →
          r.technology = "sky130" := by
  constructor
  · intro data name e he
    exact (remote_find_matches data name "sky130" e he).2.2
  · intro file name root r hr
    cases file with
    | none => exact Except.noConfusion hr
    | some data => exact (local_find_matches data name root "sky130" r hr).2.2.1

/-- Closed instance of `C8_default_sky130`: the default-technology lookup
that finds `entA` certifies its technology is `"sky130"`. -/
theorem C8_witness :
    RemoteIP.get_ip_info_default [("analog", [entA])] "ip1" = some entA
    ∧ entA.technology = "sky130" :=
  ⟨rfl, C8_default_sky130.1 [("analog", [entA])] "ip1" entA rfl⟩

/-! ## C9 — rows emitted by the info listing -/

theorem map_getD_range {α : Type} (d : α) : ∀ (l : List α),
    (List.range l.length).map (fun i => l.getD i d) = l := by
  intro l
  induction l with
  | nil => rfl
  | cons a t ih =>
    rw [List.length_cons, List.range_succ_eq_map, List.map_cons, List.map_map]
    have h : ((fun i => (a :: t).getD i d) ∘ Nat.succ) = fun i => t.getD i d := by
      funext i
      exact List.getD_cons_succ
    rw [List.getD_cons_zero, h, ih]

theorem foldl_filter_flatMap {α β : Type} (p : α → Bool) (g : α → List β) :
    ∀ (l : List α) (acc : List β),
      l.foldl (fun a v => if p v then a ++ g v else a) acc
        = acc ++ (l.filter p).flatMap g := by
  intro l
  induction l with
  | nil => intro acc; simp
  | cons x xs ih =>
    intro acc
    by_cases h : p x
    · simp only [List.foldl_cons, if_pos h, ih, List.filter_cons_of_pos h,
        List.flatMap_cons, List.append_assoc]
    · simp only [List.foldl_cons, if_neg h, ih, List.filter_cons_of_neg h]

theorem foldl_filter_flatMap2 {κ α β : Type} (p : α → Bool)
    (g : (κ × List α) → α → List β) :
    ∀ (data : List (κ × List α)) (acc : List β),
      data.foldl
        (fun a kv => kv.2.foldl (fun a v => if p v then a ++ g kv v else a) a) acc
        = acc ++ data.flatMap (fun kv => (kv.2.filter p).flatMap (g kv)) := by
  intro data
  induction data with
  | nil => intro acc; simp
  | cons kv rest ih =>
    intro acc
    rw [List.foldl_cons, foldl_filter_flatMap, ih, List.flatMap_cons,
      List.append_assoc]

/-- C9: the info listing emits, for every category in iteration order and
every descriptor whose `name` equals the request — the technology and the
category are not filtered — one row per element of its release array, in
the array's stored order. -/
theorem C9_info_rows (data : Catalog) (ip : String) :
    list_remote_ip_info data ip
      = data.flatMap (fun kv =>
          (kv.2.filter (fun v => v.name == ip)).flatMap
            (fun v => v.release.map (mkRow kv.1 v))) := by
  unfold list_remote_ip_info
  rw [foldl_filter_flatMap2, List.nil_append]
  congr 1
  funext kv
  congr 1
  funext v
  rw [show (fun i => mkRow kv.1 v (v.release.getD i ⟨"", ""⟩))
        = (mkRow kv.1 v ∘ fun i => v.release.getD i ⟨"", ""⟩) from rfl,
    ← List.map_map, map_getD_range]

/-! ## C2, C10 — rows emitted by the remote listing -/

theorem exceptOk_bind {ε α β : Type} (a : α) (f : α → Except ε β) :
    (Except.ok a >>= f) = f a := rfl

theorem list_rows_inner (key : String) :
    ∀ (l : List (Option IPEntry)) (acc : List Row),
      (∀ v : IPEntry, some v ∈ l → v.release ≠ []) →
      l.foldlM (listStep key) acc
        = .ok (acc ++ l.filterMap
            (fun v? => v?.bind (fun v => (v.release.getLast?).map (mkRow key v)))) := by
  intro l
  induction l with
  | nil =>
    intro acc _
    simp only [List.foldlM_nil, List.filterMap_nil, List.append_nil]
    rfl
  | cons v? t ih =>
    intro acc h
    rw [List.foldlM_cons]
    cases v? with
    | none =>
      rw [show listStep key acc none = pure acc from rfl, pure_bind,
        ih acc (fun v hv => h v (List.mem_cons_of_mem _ hv))]
      simp [List.filterMap_cons]
    | some v =>
      have hne : v.release ≠ [] := h v (List.mem_cons_self _ _)
      rcases hr : v.release.getLast? with _ | r
      · exact absurd (List.getLast?_eq_none_iff.mp hr) hne
      · rw [show listStep key acc (some v) = pure (acc ++ [mkRow key v r]) from by
            simp [listStep, hr],
          pure_bind, ih _ (fun w hw => h w (List.mem_cons_of_mem _ hw))]
        simp [List.filterMap_cons, hr, List.append_assoc]

theorem list_rows_eq (data : RawCatalog)
    (h : ∀ kv ∈ data, ∀ v : IPEntry, some v ∈ kv.2 → v.release ≠ []) :
    list_remote_ips data
      = .ok (data.flatMap (fun kv =>
          kv.2.filterMap
            (fun v? => v?.bind (fun v => (v.release.getLast?).map (mkRow kv.1 v))))) := by
  suffices hgen : ∀ (d : RawCatalog) (acc : List Row),
      (∀ kv ∈ d, ∀ v : IPEntry, some v ∈ kv.2 → v.release ≠ []) →
      d.foldlM (fun acc kv => kv.2.foldlM (listStep kv.1) acc) acc
        = .ok (acc ++ d.flatMap (fun kv =>
            kv.2.filterMap
              (fun v? => v?.bind (fun v => (v.release.getLast?).map (mkRow kv.1 v))))) by
    unfold list_remote_ips
    rw [hgen data [] h, List.nil_append]
  intro d
  induction d with
  | nil =>
    intro acc _
    simp only [List.foldlM_nil, List.flatMap_nil, List.append_nil]
    rfl
  | cons kv rest ih =>
    intro acc h
    rw [List.foldlM_cons,
      list_rows_inner kv.1 kv.2 acc (h kv (List.mem_cons_self _ _)),
      exceptOk_bind,
      ih _ (fun kw hkw => h kw (List.mem_cons_of_mem _ hkw)),
      List.flatMap_cons, List.append_assoc]

/-- C10, refuted at a concrete input: the catalog's single category holds
a falsy element followed by descriptor `entD` whose release array is
empty; the falsy element is skipped, but the listing then raises
`IndexError` on `entD` instead of completing. -/
theorem C10_counterexample :
    list_remote_ips [("digital", [none, some entD])] = .error .indexError := rfl

/-- C10 (amended): for every catalog containing a falsy element, provided
every non-falsy descriptor has a non-empty release array, the listing
completes without error and its rows are exactly those of the non-falsy
descriptors in iteration order — every falsy element is silently
omitted. -/
theorem C10_falsy_skipped (data : RawCatalog)
    (hwf : ∀ kv ∈ data, ∀ v : IPEntry, some v ∈ kv.2 → v.release ≠ [])
    (_hfalsy : ∃ kv ∈ data, (none : Option IPEntry) ∈ kv.2) :
    list_remote_ips data
      = .ok (data.flatMap (fun kv =>
          kv.2.filterMap
            (fun v? => v?.bind (fun v => (v.release.getLast?).map (mkRow kv.1 v))))) :=
  list_rows_eq data hwf

/-- Closed instance of `C10_falsy_skipped`: one category holding a falsy
element and `entA`; the falsy element is omitted and `entA`'s row is
listed. -/
theorem C10_witness :
    (∃ kv ∈ ([("digital", [none, some entA])] : RawCatalog),
        (none : Option IPEntry) ∈ kv.2)
    ∧ list_remote_ips [("digital", [none, some entA])]
        = .ok [mkRow "digital" entA ⟨"1.0.0", "2022-01-01T00:00:00Z"⟩] := by
  have hwf : ∀ kv ∈ ([("digital", [none, some entA])] : RawCatalog),
      ∀ v : IPEntry, some v ∈ kv.2 → v.release ≠ [] := by
    intro kv hkv v hv
    rw [List.mem_singleton] at hkv
    subst hkv
    rcases List.mem_cons.mp hv with h1 | h2
    · exact Option.noConfusion h1
    · rw [List.mem_singleton] at h2
      have hv' := Option.some.inj h2
      subst hv'
      simp [entA]
  have hfalsy : ∃ kv ∈ ([("digital", [none, some entA])] : RawCatalog),
      (none : Option IPEntry) ∈ kv.2 :=
    ⟨("digital", [none, some entA]), List.mem_singleton.mpr rfl,
      List.mem_cons_self _ _⟩
  refine ⟨hfalsy, ?_⟩
  rw [C10_falsy_skipped _ hwf hfalsy]
  rfl

/-- C2, refuted at a concrete input: descriptor `entC`'s release array is
`[2.0.0, 1.0.0]`; the listing displays the array's last element `1.0.0`
as latest even though `2.0.0`, also present in the array, is strictly
newer under componentwise integer comparison — the display is NOT the
maximum of the release list. -/
theorem C2_counterexample :
    list_remote_ips [("digital", [some entC])]
      = .ok [mkRow "digital" entC ⟨"1.0.0", "2022-01-01T00:00:00Z"⟩]
    ∧ (mkRow "digital" entC ⟨"1.0.0", "2022-01-01T00:00:00Z"⟩).version = "1.0.0"
    ∧ isNewer "2.0.0" "1.0.0" = some true
    ∧ "2.0.0" ∈ entC.release.map ReleaseEntry.version := by
  exact ⟨rfl, rfl, by decide, by decide⟩

/-- C2 (amended): the release displayed as latest by the remote listing is
exactly the LAST element of the descriptor's release array — array order
is trusted, with no re-derivation of the maximum by version comparison. -/
theorem C2_last_release_shown (key : String) (v : IPEntry) (r : ReleaseEntry)
    (rest : List ReleaseEntry) (h : v.release = rest ++ [r]) :
    list_remote_ips [(key, [some v])] = .ok [mkRow key v r] := by
  have hwf : ∀ kv ∈ ([(key, [some v])] : RawCatalog),
      ∀ w : IPEntry, some w ∈ kv.2 → w.release ≠ [] := by
    intro kv hkv w hw
    rw [List.mem_singleton] at hkv
    subst hkv
    rw [List.mem_singleton] at hw
    have hw' := Option.some.inj hw
    subst hw'
    simp [h]
  rw [list_rows_eq _ hwf]
  simp [h, List.getLast?_concat]

/-- Closed instance of `C2_last_release_shown` at `entC`, whose release
array ends in version `1.0.0`. -/
theorem C2_witness :
    entC.release = [⟨"2.0.0", "2022-02-01T00:00:00Z"⟩]
        ++ [⟨"1.0.0", "2022-01-01T00:00:00Z"⟩]
    ∧ list_remote_ips [("digital", [some entC])]
        = .ok [mkRow "digital" entC ⟨"1.0.0", "2022-01-01T00:00:00Z"⟩] :=
  ⟨rfl, C2_last_release_shown "digital" entC ⟨"1.0.0", "2022-01-01T00:00:00Z"⟩
    [⟨"2.0.0", "2022-02-01T00:00:00Z"⟩] rfl⟩

/-! ## C7 — the version comparison is a strict total order -/

theorem compAt_nil (i : Nat) : compAt [] i = 0 := by
  cases i <;> rfl

theorem compAt_cons_zero (x : Nat) (u : List Nat) : compAt (x :: u) 0 = x := rfl

theorem compAt_cons_succ (x : Nat) (u : List Nat) (i : Nat) :
    compAt (x :: u) (i + 1) = compAt u i :=
  List.getD_cons_succ

theorem bool_eq_false_of_not_true {b : Bool} (h : b ≠ true) : b = false := by
  cases b
  · rfl
  · exact absurd rfl h

theorem lexGt_iff : ∀ (u v : List Nat), u.length = v.length →
    (lexGt u v = true ↔
      ∃ i, (∀ j, j < i → compAt u j = compAt v j) ∧ compAt v i < compAt u i) := by
  intro u
  induction u with
  | nil =>
    intro v hv
    have hv' : v = [] := List.length_eq_zero.mp hv.symm
    subst hv'
    constructor
    · intro h
      exact absurd h (by decide)
    · rintro ⟨i, _, hlt⟩
      exact absurd hlt (lt_irrefl _)
  | cons x xs ih =>
    intro v hv
    cases v with
    | nil => exact absurd hv (by simp)
    | cons y ys =>
      have hlen : xs.length = ys.length := by simpa using hv
      show (if y < x then true else if x = y then lexGt xs ys else false) = true ↔ _
      by_cases h1 : y < x
      · rw [if_pos h1]
        constructor
        · intro _
          exact ⟨0, fun j hj => absurd hj (Nat.not_lt_zero j), h1⟩
        · intro _
          rfl
      · by_cases h2 : x = y
        · subst h2
          rw [if_neg h1, if_pos rfl, ih ys hlen]
          constructor
          · rintro ⟨i, hpre, hlt⟩
            refine ⟨i + 1, ?_, ?_⟩
            · intro j hj
              cases j with
              | zero => rfl
              | succ k =>
                rw [compAt_cons_succ, compAt_cons_succ]
                exact hpre k (Nat.lt_of_succ_lt_succ hj)
            · rw [compAt_cons_succ, compAt_cons_succ]
              exact hlt
          · rintro ⟨i, hpre, hlt⟩
            cases i with
            | zero =>
              rw [compAt_cons_zero, compAt_cons_zero] at hlt
              exact absurd hlt (lt_irrefl x)
            | succ k =>
              refine ⟨k, ?_, ?_⟩
              · intro j hj
                have hj' := hpre (j + 1) (Nat.succ_lt_succ hj)
                rw [compAt_cons_succ, compAt_cons_succ] at hj'
                exact hj'
              · rw [compAt_cons_succ, compAt_cons_succ] at hlt
                exact hlt
        · have h3 : x < y := lt_of_le_of_ne (Nat.le_of_not_lt h1) h2
          rw [if_neg h1, if_neg h2]
          constructor
          · intro h
            exact absurd h (by decide)
          · rintro ⟨i, hpre, hlt⟩
            cases i with
            | zero =>
              rw [compAt_cons_zero, compAt_cons_zero] at hlt
              exact absurd hlt h1
            | succ k =>
              have h0 := hpre 0 (Nat.succ_pos k)
              rw [compAt_cons_zero, compAt_cons_zero] at h0
              exact absurd h0 h2

theorem padTo_length (n : Nat) (u : List Nat) (h : u.length ≤ n) :
    (padTo n u).length = n := by
  simp [padTo]
  omega

theorem compAt_padTo (n : Nat) (u : List Nat) (i : Nat) :
    compAt (padTo n u) i = compAt u i := by
  unfold compAt padTo
  rw [List.getD_eq_getElem?_getD, List.getD_eq_getElem?_getD, List.getElem?_append]
  by_cases h : i < u.length
  · rw [if_pos h]
  · rw [if_neg h, List.getElem?_replicate,
      List.getElem?_eq_none (Nat.le_of_not_lt h)]
    by_cases h2 : i - u.length < n - u.length
    · rw [if_pos h2]
      rfl
    · rw [if_neg h2]

theorem verGt_iff (u v : List Nat) : verGt u v = true ↔ VerGtSpec u v := by
  unfold verGt VerGtSpec
  rw [lexGt_iff _ _ (by
    rw [padTo_length _ _ (le_max_left _ _), padTo_length _ _ (le_max_right _ _)])]
  simp only [compAt_padTo]

theorem verEqv_iff (u v : List Nat) :
    verEqv u v = true ↔ ∀ i, compAt u i = compAt v i := by
  unfold verEqv
  rw [beq_iff_eq]
  constructor
  · intro h i
    have hc := congrArg (fun l => compAt l i) h
    simpa [compAt_padTo] using hc
  · intro h
    apply List.ext_getElem
    · rw [padTo_length _ _ (le_max_left _ _), padTo_length _ _ (le_max_right _ _)]
    · intro n h1 h2
      rw [← List.getD_eq_getElem _ 0 h1, ← List.getD_eq_getElem _ 0 h2]
      show compAt (padTo (max u.length v.length) u) n
        = compAt (padTo (max u.length v.length) v) n
      rw [compAt_padTo, compAt_padTo]
      exact h n

theorem VerGtSpec_irrefl (u : List Nat) : ¬ VerGtSpec u u := by
  rintro ⟨i, _, hlt⟩
  exact lt_irrefl _ hlt

theorem VerGtSpec_trans {u v w : List Nat} :
    VerGtSpec u v → VerGtSpec v w → VerGtSpec u w := by
  rintro ⟨i, hpre1, hlt1⟩ ⟨i', hpre2, hlt2⟩
  rcases Nat.lt_trichotomy i i' with h | h | h
  · refine ⟨i, ?_, ?_⟩
    · intro j hj
      rw [hpre1 j hj]
      exact hpre2 j (lt_trans hj h)
    · rw [← hpre2 i h]
      exact hlt1
  · subst h
    refine ⟨i, ?_, lt_trans hlt2 hlt1⟩
    intro j hj
    exact (hpre1 j hj).trans (hpre2 j hj)
  · refine ⟨i', ?_, ?_⟩
    · intro j hj
      exact (hpre1 j (lt_trans hj h)).trans (hpre2 j hj)
    · rw [hpre1 i' h]
      exact hlt2

theorem VerGtSpec_trichotomy (u v : List Nat) :
    VerGtSpec u v ∨ VerGtSpec v u ∨ (∀ i, compAt u i = compAt v i) := by
  by_cases h : ∀ i, compAt u i = compAt v i
  · exact Or.inr (Or.inr h)
  · push_neg at h
    have hfind := Nat.find_spec h
    have hmin : ∀ j, j < Nat.find h → compAt u j = compAt v j := by
      intro j hj
      exact not_ne_iff.mp (Nat.find_min h hj)
    rcases Nat.lt_trichotomy (compAt u (Nat.find h)) (compAt v (Nat.find h)) with
      hlt | heq | hgt
    · exact Or.inr (Or.inl ⟨Nat.find h, fun j hj => (hmin j hj).symm, hlt⟩)
    · exact absurd heq hfind
    · exact Or.inl ⟨Nat.find h, hmin, hgt⟩

/-- C7: on well-formed version strings (dot-separated non-negative
integers), `isNewer` agrees with declarative componentwise integer
comparison with missing trailing components treated as zero
(`VerGtSpec`), and is a strict total order up to padded equivalence:
irreflexive, asymmetric, transitive, and total in the sense that two
versions are comparable or equivalent.  In particular
`isNewer "1.10.0" "1.9.0"` is true and `isNewer "1.2" "1.2.0"` is
false. -/
theorem C7_version_order (a b c : String) (u v w : List Nat)
    (ha : parseVersion a = some u) (hb : parseVersion b = some v)
    (hc : parseVersion c = some w) :
    (isNewer a b = some true ↔ VerGtSpec u v)
    ∧ isNewer a a = some false
    ∧ (isNewer a b = some true → isNewer b a = some false)
    ∧ (isNewer a b = some true → isNewer b c = some true → isNewer a c = some true)
    ∧ (isNewer a b = some true ∨ isNewer b a = some true ∨ verEqv u v = true)
    ∧ isNewer "1.10.0" "1.9.0" = some true
    ∧ isNewer "1.2" "1.2.0" = some false := by
  have hab : isNewer a b = some (verGt u v) := by simp [isNewer, ha, hb]
  have hba : isNewer b a = some (verGt v u) := by simp [isNewer, ha, hb]
  have haa : isNewer a a = some (verGt u u) := by simp [isNewer, ha]
  have hbc : isNewer b c = some (verGt v w) := by simp [isNewer, hb, hc]
  have hac : isNewer a c = some (verGt u w) := by simp [isNewer, ha, hc]
  refine ⟨?_, ?_, ?_, ?_, ?_, by decide, by decide⟩
  · rw [hab, Option.some.injEq]
    exact verGt_iff u v
  · rw [haa,
      bool_eq_false_of_not_true
        (fun ht => VerGtSpec_irrefl u ((verGt_iff u u).mp ht))]
  · intro h
    have huv : VerGtSpec u v := (verGt_iff u v).mp (by rwa [hab, Option.some.injEq] at h)
    rw [hba, bool_eq_false_of_not_true (fun ht =>
      VerGtSpec_irrefl v (VerGtSpec_trans ((verGt_iff v u).mp ht) huv))]
  · intro h1 h2
    have huv : VerGtSpec u v := (verGt_iff u v).mp (by rwa [hab, Option.some.injEq] at h1)
    have hvw : VerGtSpec v w := (verGt_iff v w).mp (by rwa [hbc, Option.some.injEq] at h2)
    rw [hac, (verGt_iff u w).mpr (VerGtSpec_trans huv hvw)]
  · rcases VerGtSpec_trichotomy u v with h | h | h
    · left
      rw [hab, Option.some.injEq]
      exact (verGt_iff u v).mpr h
    · right; left
      rw [hba, Option.some.injEq]
      exact (verGt_iff v u).mpr h
    · right; right
      exact (verEqv_iff u v).mpr h

/-- Closed instance of `C7_version_order`: "1.10.0" parses to [1,10,0],
"1.9.0" to [1,9,0], and the former is strictly newer. -/
theorem C7_witness :
    parseVersion "1.10.0" = some [1, 10, 0]
    ∧ parseVersion "1.9.0" = some [1, 9, 0]
    ∧ isNewer "1.10.0" "1.9.0" = some true :=
  ⟨by decide, by decide,
    (C7_version_order "1.10.0" "1.9.0" "1.9.0" [1, 10, 0] [1, 9, 0] [1, 9, 0]
      (by decide) (by decide) (by decide)).2.2.2.2.2.1⟩
